import Mathlib

/-!
Shallow embedding of the selection-state tree of the file-collector
extension (src/extension.ts): the `FileCollectorProvider` class with its
path-keyed item map, checkbox toggling with directory propagation,
the toggle-all command, and output-document generation.

The filesystem is modelled as an inductive tree (`FsTree`); a directory
carries a `readable` flag so that a failing `readdir` (an IOError) can be
represented.  The JavaScript `Map` is modelled as an association list in
insertion order: `set` on an existing key replaces the value in place,
`set` on a fresh key appends, and iteration follows the list.
-/

namespace FileCollector

/-- A filesystem subtree: a file with text content, or a directory with a
named entry list.  `readable = false` means `fs.promises.readdir` on that
directory rejects with an IOError. -/
inductive FsTree where
  | file (content : String) : FsTree
  | dir (readable : Bool) (entries : List (String × FsTree)) : FsTree

/-- vscode.TreeItemCollapsibleState: `None` marks a file row (no children),
`Collapsed` a directory row. -/
inductive CollapsibleState where
  | None : CollapsibleState
  | Collapsed : CollapsibleState
  | Expanded : CollapsibleState
deriving DecidableEq

/-- The `FileItem` tree item: label, collapsible state, absolute path and
checkbox state (the mirrored `checkboxState` field is determined by
`isChecked` and is not modelled separately). -/
structure FileItem where
  label : String
  collapsibleState : CollapsibleState
  filePath : String
  isChecked : Bool
deriving DecidableEq

/-- FileItem.updateCheckState: sets `isChecked` (and the mirrored checkbox
state) to the given value. -/
def updateCheckState (it : FileItem) (checked : Bool) : FileItem :=
  { it with isChecked := checked }

/-- The provider's `items : Map<string, FileItem>`, as an association list
in insertion order. -/
abbrev Items := List (String × FileItem)

/-- Map lookup (`items.get`): first binding of the key, if any. -/
def mapGet : Items → String → Option FileItem
  | [], _ => Option.none
  | (k, v) :: rest, p => if k = p then some v else mapGet rest p

/-- Map update (`items.set`): replace in place when the key is present
(JavaScript `Map.set` keeps the original insertion position), append
otherwise. -/
def mapSet : Items → String → FileItem → Items
  | [], p, v => [(p, v)]
  | (k, w) :: rest, p, v =>
      if k = p then (k, v) :: rest else (k, w) :: mapSet rest p v

/-- Node's `path.join(dirPath, name)` for the POSIX paths this tree
builds. -/
def pathJoin (dirPath name : String) : String :=
  dirPath ++ "/" ++ name

/-- IOError raised by a rejected `fs.promises.readdir`, carrying the path
that could not be read. -/
inductive IOErr where
  | readdirFailed (path : String) : IOErr
deriving DecidableEq

/-- Whether a filesystem entry answers true to `entry.isDirectory()`. -/
def isDirEntry : FsTree → Bool
  | FsTree.file _ => false
  | FsTree.dir _ _ => true

/-- Loop body of getFilesInDirectory over the `readdir` result: skips
`node_modules` / `.git` entries only when they are directories, builds a
`FileItem` per remaining entry reusing the checked state of an existing map
binding at that path (default `false`), stores it in the map and collects it
in listing order. -/
def listFiles : String → List (String × FsTree) → Items → Items × List FileItem
  | _, [], items => (items, [])
  | d, (n, sub) :: rest, items =>
      if isDirEntry sub ∧ (n = "node_modules" ∨ n = ".git") then
        listFiles d rest items
      else
        let fp := pathJoin d n
        let checked := ((mapGet items fp).map FileItem.isChecked).getD false
        let st := if isDirEntry sub then CollapsibleState.Collapsed
                  else CollapsibleState.None
        let item : FileItem := ⟨n, st, fp, checked⟩
        let r := listFiles d rest (mapSet items fp item)
        (r.1, item :: r.2)

/-- getFilesInDirectory: `readdir(dirPath)` followed by the entry loop;
`Option.none` is the propagated IOError when the path is not a readable
directory. -/
def getFilesInDirectory (t : FsTree) (dirPath : String) (items : Items) :
    Option (Items × List FileItem) :=
  match t with
  | FsTree.file _ => Option.none
  | FsTree.dir false _ => Option.none
  | FsTree.dir true es => some (listFiles dirPath es items)

/-- Loop body of toggleDirectoryChildren over a `readdir` result: skips
entries named `node_modules` / `.git` by name alone (no `isDirectory()`
test, unlike the listing), updates the map binding at the entry's path when
one exists (never creating one), and recurses into directory entries.  The
second component is the IOError of the first failing recursive `readdir`;
mutations made before the failure are kept. -/
def toggleChildren : Bool → String → List (String × FsTree) → Items →
    Items × Option IOErr
  | _, _, [], items => (items, Option.none)
  | c, d, (n, sub) :: rest, items =>
      if n = "node_modules" ∨ n = ".git" then
        toggleChildren c d rest items
      else
        let fp := pathJoin d n
        let items1 :=
          match mapGet items fp with
          | some it => mapSet items fp (updateCheckState it c)
          | Option.none => items
        match sub with
        | FsTree.file _ => toggleChildren c d rest items1
        | FsTree.dir false _ => (items1, some (IOErr.readdirFailed fp))
        | FsTree.dir true es =>
            match toggleChildren c fp es items1 with
            | (items2, Option.none) => toggleChildren c d rest items2
            | (items2, some e) => (items2, some e)

/-- toggleDirectoryChildren on the subtree found at `dirPath`: `readdir`
then the entry loop; a non-directory or unreadable `dirPath` is the IOError
case. -/
def toggleDirectoryChildren (t : FsTree) (dirPath : String) (checked : Bool)
    (items : Items) : Items × Option IOErr :=
  match t with
  | FsTree.file _ => (items, some (IOErr.readdirFailed dirPath))
  | FsTree.dir false _ => (items, some (IOErr.readdirFailed dirPath))
  | FsTree.dir true es => toggleChildren checked dirPath es items

/-- toggleCheck: flips the item's checked state (reflected in the map when
the map holds this item), and when the item is not a plain file row
(collapsibleState differs from None) runs the directory propagation on the
subtree `t` rooted at the item's path.  The second component is the outcome
of that propagation. -/
def toggleCheck (t : FsTree) (items : Items) (item : FileItem) :
    Items × Option IOErr :=
  let newState := !item.isChecked
  let items1 :=
    if mapGet items item.filePath = some item then
      mapSet items item.filePath (updateCheckState item newState)
    else items
  if item.collapsibleState = CollapsibleState.None then
    (items1, Option.none)
  else
    toggleDirectoryChildren t item.filePath newState items1

/-- The provider state: the item map plus the `allChecked` flag consumed by
toggleAllFiles. -/
structure ProviderState where
  items : Items
  allChecked : Bool
deriving DecidableEq

/-- toggleAllFiles: flips `allChecked`, then sets every item currently in
the map to the new flag value. -/
def toggleAllFiles (s : ProviderState) : ProviderState :=
  let a := !s.allChecked
  { items := s.items.map (fun p => (p.1, updateCheckState p.2 a)),
    allChecked := a }

/-- getCheckedFiles: the keys of map bindings whose item is checked and has
collapsibleState None (file rows), in map iteration order. -/
def getCheckedFiles : Items → List String
  | [] => []
  | (k, it) :: rest =>
      if it.isChecked ∧ it.collapsibleState = CollapsibleState.None then
        k :: getCheckedFiles rest
      else getCheckedFiles rest

/-- Node's `path.relative(root, p)` for the paths this tree builds, which
are always of the form `root ++ sep ++ rel`: drop the root and the
separator. -/
def relativePath (root p : String) : String :=
  p.drop (root.length + 1)

/-- Outcome of generateFile: warning on empty selection, silent return when
no file name was entered, error message when reading a checked file failed
(nothing written), or the output artifact (path and document text). -/
inductive GenResult where
  | noSelection : GenResult
  | cancelled : GenResult
  | readFailed (path : String) : GenResult
  | written (outPath : String) (doc : String) : GenResult
deriving DecidableEq

/-- The read-and-concatenate loop of generateFile: reads each checked file
in order; the first failing read aborts the loop with that path, otherwise
the blocks (header line with the relative path, raw content, blank-line
separator) are concatenated in order. -/
def buildOutput (readF : String → Option String) (root : String) :
    List String → Except String String
  | [] => Except.ok ""
  | f :: rest =>
      match readF f with
      | Option.none => Except.error f
      | some content =>
          match buildOutput readF root rest with
          | Except.error e => Except.error e
          | Except.ok out =>
              Except.ok ("// File: " ++ relativePath root f ++ "\n" ++
                content ++ "\n\n" ++ out)

/-- generateFile: warn and stop when no files are checked; stop when the
file-name prompt was dismissed; otherwise read every checked file in order
and write the concatenated document to `root/name.txt`.  A failing read
reaches the catch block and nothing is written.  The item map is never
modified. -/
def generateFile (readF : String → Option String) (root : String)
    (fileName : Option String) (items : Items) : GenResult :=
  let checkedFiles := getCheckedFiles items
  if checkedFiles.isEmpty then GenResult.noSelection
  else
    match fileName with
    | Option.none => GenResult.cancelled
    | some nm =>
        match buildOutput readF root checkedFiles with
        | Except.error p => GenResult.readFailed p
        | Except.ok doc =>
            GenResult.written (pathJoin root (nm ++ ".txt")) doc

/-- The descendant entry paths visited by the toggleDirectoryChildren walk
below a directory's entry list (entries named `node_modules` / `.git`
excluded by name, recursing into directory entries), in visit order. -/
def walkPaths : String → List (String × FsTree) → List String
  | _, [] => []
  | d, (n, sub) :: rest =>
      if n = "node_modules" ∨ n = ".git" then walkPaths d rest
      else
        pathJoin d n ::
          (match sub with
           | FsTree.file _ => []
           | FsTree.dir _ es => walkPaths (pathJoin d n) es) ++
          walkPaths d rest

/-- walkPaths lifted to the subtree at the toggled directory. -/
def walkPathsTree (t : FsTree) (dirPath : String) : List String :=
  match t with
  | FsTree.file _ => []
  | FsTree.dir _ es => walkPaths dirPath es

/-! Basic lemmas about the map model and paths. -/

theorem mapGet_mapSet_self (m : Items) (p : String) (v : FileItem) :
    mapGet (mapSet m p v) p = some v := by
  induction m with
  | nil => simp [mapGet, mapSet]
  | cons hd tl ih =>
      obtain ⟨k, w⟩ := hd
      by_cases h : k = p <;> simp [mapGet, mapSet, h, ih]

theorem mapGet_mapSet_ne (m : Items) (p q : String) (v : FileItem) (h : q ≠ p) :
    mapGet (mapSet m p v) q = mapGet m q := by
  induction m with
  | nil => simp [mapGet, mapSet, Ne.symm h]
  | cons hd tl ih =>
      obtain ⟨k, w⟩ := hd
      by_cases hk : k = p
      · subst hk
        simp [mapGet, mapSet, Ne.symm h]
      · simp [mapGet, mapSet, hk, ih]

theorem mapSet_self (m : Items) (p : String) (v : FileItem)
    (h : mapGet m p = some v) : mapSet m p v = m := by
  induction m with
  | nil => simp [mapGet] at h
  | cons hd tl ih =>
      obtain ⟨k, w⟩ := hd
      by_cases hk : k = p
      · subst hk
        simp [mapGet] at h
        simp [mapSet, h]
      · simp [mapGet, hk] at h
        simp [mapSet, hk, ih h]

theorem mapSet_keys_of_isSome (m : Items) (p : String) (v : FileItem)
    (h : (mapGet m p).isSome) : (mapSet m p v).map Prod.fst = m.map Prod.fst := by
  induction m with
  | nil => simp [mapGet] at h
  | cons hd tl ih =>
      obtain ⟨k, w⟩ := hd
      by_cases hk : k = p
      · simp [mapSet, hk]
      · simp [mapGet, hk] at h
        simp [mapSet, hk, ih h]

theorem mapGet_mem (m : Items) (p : String) (it : FileItem)
    (h : mapGet m p = some it) : (p, it) ∈ m := by
  induction m with
  | nil => simp [mapGet] at h
  | cons hd tl ih =>
      obtain ⟨k, w⟩ := hd
      by_cases hk : k = p
      · subst hk
        simp [mapGet] at h
        simp [h]
      · simp only [mapGet, if_neg hk] at h
        exact List.mem_cons_of_mem _ (ih h)

theorem mem_getCheckedFiles_of (m : Items) (p : String) (it : FileItem)
    (hmem : (p, it) ∈ m) (hc : it.isChecked = true)
    (hk : it.collapsibleState = CollapsibleState.None) :
    p ∈ getCheckedFiles m := by
  induction m with
  | nil => simp at hmem
  | cons hd tl ih =>
      obtain ⟨k, w⟩ := hd
      rcases List.mem_cons.mp hmem with h | h
      · rw [Prod.mk.injEq] at h
        obtain ⟨h1, h2⟩ := h
        subst h1
        subst h2
        simp [getCheckedFiles, hc, hk]
      · by_cases hcw : (w.isChecked : Prop) ∧ w.collapsibleState = CollapsibleState.None
        · simp only [getCheckedFiles, if_pos hcw]
          exact List.mem_cons_of_mem _ (ih h)
        · simpa only [getCheckedFiles, if_neg hcw] using ih h

theorem pathJoin_length (d n : String) :
    (pathJoin d n).length = d.length + 1 + n.length := by
  have h1 : ("/" : String).length = 1 := rfl
  simp [pathJoin, String.length_append, h1]

theorem pathJoin_right_inj (d : String) {a b : String}
    (h : pathJoin d a = pathJoin d b) : a = b := by
  have hd := congrArg String.data h
  simp only [pathJoin, String.data_append, List.append_assoc] at hd
  exact String.ext (List.append_cancel_left (List.append_cancel_left hd))

/-! The directory-propagation loop: invariants used by several claims. -/

theorem updateCheckState_idem (it : FileItem) (c : Bool) :
    updateCheckState (updateCheckState it c) c = updateCheckState it c := rfl

/-- Relation between the map before and after a propagation step: every
binding is either untouched or set to the target checked value. -/
def OnlyToggled (c : Bool) (m m' : Items) : Prop :=
  ∀ k, mapGet m' k = mapGet m k ∨
       mapGet m' k = (mapGet m k).map (fun it => updateCheckState it c)

theorem OnlyToggled.refl (c : Bool) (m : Items) : OnlyToggled c m m :=
  fun _ => Or.inl rfl

theorem OnlyToggled.trans (c : Bool) (m₁ m₂ m₃ : Items)
    (h12 : OnlyToggled c m₁ m₂) (h23 : OnlyToggled c m₂ m₃) :
    OnlyToggled c m₁ m₃ := by
  intro k
  rcases h23 k with h | h <;> rcases h12 k with h' | h'
  · exact Or.inl (h.trans h')
  · exact Or.inr (h.trans h')
  · exact Or.inr (h ▸ congrArg _ h')
  · refine Or.inr ?_
    rw [h, h']
    cases mapGet m₁ k <;> simp [updateCheckState_idem]

theorem OnlyToggled_step (c : Bool) (m : Items) (fp : String) :
    OnlyToggled c m
      (match mapGet m fp with
       | some it => mapSet m fp (updateCheckState it c)
       | Option.none => m) := by
  rcases hfp : mapGet m fp with _ | it
  · exact OnlyToggled.refl c m
  · intro k
    by_cases hk : k = fp
    · subst hk
      right
      rw [mapGet_mapSet_self, hfp]
      rfl
    · left
      exact mapGet_mapSet_ne m fp k _ hk

theorem toggleChildren_onlyToggled (c : Bool) (d : String)
    (es : List (String × FsTree)) (m : Items) :
    OnlyToggled c m (toggleChildren c d es m).1 := by
  induction c, d, es, m using toggleChildren.induct with
  | case1 c d m =>
      simpa [toggleChildren] using OnlyToggled.refl c m
  | case2 c d n sub rest m hn ih =>
      simpa [toggleChildren, hn] using ih
  | case3 c d n rest m hn fp items1 content ih =>
      refine OnlyToggled.trans c m items1 _ (OnlyToggled_step c m fp) ?_
      simp only [toggleChildren, hn]
      simpa using ih
  | case4 c d n rest m hn entries =>
      simp only [toggleChildren, hn]
      simpa using OnlyToggled_step c m (pathJoin d n)
  | case5 c d n rest m hn fp items1 es items2 hrec ih1 ih2 =>
      refine OnlyToggled.trans c m items2 _
        (OnlyToggled.trans c m items1 items2 (OnlyToggled_step c m fp) ?_) ?_
      · rw [hrec] at ih1
        exact ih1
      · simp only [toggleChildren, hn]
        simp only [hrec]
        exact ih2
  | case6 c d n rest m hn fp items1 es items2 e hrec ih1 =>
      refine OnlyToggled.trans c m items1 _ (OnlyToggled_step c m fp) ?_
      simp only [toggleChildren, hn]
      simp only [hrec]
      rw [hrec] at ih1
      exact ih1

theorem toggleStep_mapGet_ne (c : Bool) (m : Items) (fp k : String) (h : k ≠ fp) :
    mapGet (match mapGet m fp with
            | some it => mapSet m fp (updateCheckState it c)
            | Option.none => m) k = mapGet m k := by
  cases hfp : mapGet m fp with
  | none => rfl
  | some it => exact mapGet_mapSet_ne m fp k _ h

theorem toggleStep_mapGet_self (c : Bool) (m : Items) (fp : String) :
    mapGet (match mapGet m fp with
            | some it => mapSet m fp (updateCheckState it c)
            | Option.none => m) fp
      = (mapGet m fp).map (fun it => updateCheckState it c) := by
  cases hfp : mapGet m fp with
  | none => simp [hfp]
  | some it => simp [mapGet_mapSet_self, hfp]

theorem ne_pathJoin_of_le (d n k : String) (h : k.length ≤ d.length) :
    k ≠ pathJoin d n := by
  intro he
  have hl := pathJoin_length d n
  rw [← he] at hl
  omega

theorem toggleChildren_cons_excluded (c : Bool) (d n : String) (sub : FsTree)
    (rest : List (String × FsTree)) (m : Items)
    (hn : n = "node_modules" ∨ n = ".git") :
    toggleChildren c d ((n, sub) :: rest) m = toggleChildren c d rest m := by
  simp [toggleChildren, hn]

theorem toggleChildren_cons_file (c : Bool) (d n content : String)
    (rest : List (String × FsTree)) (m : Items)
    (hn : ¬(n = "node_modules" ∨ n = ".git")) :
    toggleChildren c d ((n, FsTree.file content) :: rest) m =
      toggleChildren c d rest
        (match mapGet m (pathJoin d n) with
         | some it => mapSet m (pathJoin d n) (updateCheckState it c)
         | Option.none => m) := by
  simp [toggleChildren, hn]

theorem toggleChildren_cons_dir_unreadable (c : Bool) (d n : String)
    (entries rest : List (String × FsTree)) (m : Items)
    (hn : ¬(n = "node_modules" ∨ n = ".git")) :
    toggleChildren c d ((n, FsTree.dir false entries) :: rest) m =
      ((match mapGet m (pathJoin d n) with
        | some it => mapSet m (pathJoin d n) (updateCheckState it c)
        | Option.none => m),
       some (IOErr.readdirFailed (pathJoin d n))) := by
  simp [toggleChildren, hn]

theorem toggleChildren_cons_dir (c : Bool) (d n : String)
    (es rest : List (String × FsTree)) (m : Items)
    (hn : ¬(n = "node_modules" ∨ n = ".git")) :
    toggleChildren c d ((n, FsTree.dir true es) :: rest) m =
      (match toggleChildren c (pathJoin d n) es
          (match mapGet m (pathJoin d n) with
           | some it => mapSet m (pathJoin d n) (updateCheckState it c)
           | Option.none => m) with
       | (items2, Option.none) => toggleChildren c d rest items2
       | (items2, some e) => (items2, some e)) := by
  simp [toggleChildren, hn]

theorem walkPaths_cons_excluded (d n : String) (sub : FsTree)
    (rest : List (String × FsTree)) (hn : n = "node_modules" ∨ n = ".git") :
    walkPaths d ((n, sub) :: rest) = walkPaths d rest := by
  cases sub <;> simp [walkPaths, hn]

theorem walkPaths_cons_file (d n content : String)
    (rest : List (String × FsTree)) (hn : ¬(n = "node_modules" ∨ n = ".git")) :
    walkPaths d ((n, FsTree.file content) :: rest) =
      pathJoin d n :: walkPaths d rest := by
  simp [walkPaths, hn]

theorem walkPaths_cons_dir (d n : String) (b : Bool)
    (es rest : List (String × FsTree)) (hn : ¬(n = "node_modules" ∨ n = ".git")) :
    walkPaths d ((n, FsTree.dir b es) :: rest) =
      pathJoin d n :: (walkPaths (pathJoin d n) es ++ walkPaths d rest) := by
  simp [walkPaths, hn]

/-- A map related by OnlyToggled keeps any binding that is already at the
target checked value. -/
theorem OnlyToggled.mapGet_updated (c : Bool) (m m' : Items)
    (h : OnlyToggled c m m') (k : String) (x : Option FileItem)
    (hk : mapGet m k = x.map (fun it => updateCheckState it c)) :
    mapGet m' k = x.map (fun it => updateCheckState it c) := by
  rcases h k with h' | h'
  · exact h'.trans hk
  · rw [h', hk]
    cases x <;> simp [updateCheckState_idem]

theorem OnlyToggled.map_eq (c : Bool) (m m' : Items)
    (h : OnlyToggled c m m') (k : String) :
    (mapGet m' k).map (fun it => updateCheckState it c)
      = (mapGet m k).map (fun it => updateCheckState it c) := by
  rcases h k with h' | h'
  · rw [h']
  · rw [h']
    cases mapGet m k <;> simp [updateCheckState_idem]

/-- The propagation loop below `d` never touches a key no longer than `d`:
every key it writes is of the form `pathJoin d' name` with `d'` at least as
long as `d`. -/
theorem toggleChildren_mapGet_of_le (c : Bool) (d : String)
    (es : List (String × FsTree)) (m : Items) :
    ∀ k : String, k.length ≤ d.length →
      mapGet (toggleChildren c d es m).1 k = mapGet m k := by
  induction c, d, es, m using toggleChildren.induct with
  | case1 c d m =>
      intro k _
      simp [toggleChildren]
  | case2 c d n sub rest m hn ih =>
      intro k hk
      rw [toggleChildren_cons_excluded c d n sub rest m hn]
      exact ih k hk
  | case3 c d n rest m hn fp items1 content ih =>
      intro k hk
      rw [toggleChildren_cons_file c d n content rest m hn]
      have h1 : mapGet items1 k = mapGet m k :=
        toggleStep_mapGet_ne c m fp k (ne_pathJoin_of_le d n k hk)
      exact (ih k hk).trans h1
  | case4 c d n rest m hn entries =>
      intro k hk
      rw [toggleChildren_cons_dir_unreadable c d n entries rest m hn]
      exact toggleStep_mapGet_ne c m (pathJoin d n) k (ne_pathJoin_of_le d n k hk)
  | case5 c d n rest m hn fp items1 es items2 hrec ih1 ih2 =>
      intro k hk
      rw [toggleChildren_cons_dir c d n es rest m hn]
      have hfp : k.length ≤ (pathJoin d n).length := by
        have := pathJoin_length d n
        omega
      have h1 : mapGet items1 k = mapGet m k :=
        toggleStep_mapGet_ne c m fp k (ne_pathJoin_of_le d n k hk)
      have h2 := ih1 k hfp
      rw [hrec] at h2
      have h4 : (match toggleChildren c (pathJoin d n) es items1 with
          | (items2, Option.none) => toggleChildren c d rest items2
          | (items2, some e) => (items2, some e)) = toggleChildren c d rest items2 := by
        rw [hrec]
      rw [h4, ih2 k hk, h2, h1]
  | case6 c d n rest m hn fp items1 es items2 e hrec ih1 =>
      intro k hk
      rw [toggleChildren_cons_dir c d n es rest m hn]
      have hfp : k.length ≤ (pathJoin d n).length := by
        have := pathJoin_length d n
        omega
      have h1 : mapGet items1 k = mapGet m k :=
        toggleStep_mapGet_ne c m fp k (ne_pathJoin_of_le d n k hk)
      have h2 := ih1 k hfp
      rw [hrec] at h2
      have h4 : (match toggleChildren c (pathJoin d n) es items1 with
          | (items2, Option.none) => toggleChildren c d rest items2
          | (items2, some e) => (items2, some e)) = (items2, some e) := by
        rw [hrec]
      rw [h4]
      exact h2.trans h1

/-- On a successful propagation, every already-known binding at a visited
path ends at the target checked value. -/
theorem toggleChildren_walk (c : Bool) (d : String)
    (es : List (String × FsTree)) (m : Items) :
    (toggleChildren c d es m).2 = Option.none →
    ∀ p ∈ walkPaths d es,
      mapGet (toggleChildren c d es m).1 p
        = (mapGet m p).map (fun it => updateCheckState it c) := by
  induction c, d, es, m using toggleChildren.induct with
  | case1 c d m =>
      intro _ p hp
      simp [walkPaths] at hp
  | case2 c d n sub rest m hn ih =>
      intro hok p hp
      rw [toggleChildren_cons_excluded c d n sub rest m hn] at hok ⊢
      rw [walkPaths_cons_excluded d n sub rest hn] at hp
      exact ih hok p hp
  | case3 c d n rest m hn fp items1 content ih =>
      intro hok p hp
      rw [toggleChildren_cons_file c d n content rest m hn] at hok ⊢
      rw [walkPaths_cons_file d n content rest hn, List.mem_cons] at hp
      have hstep : OnlyToggled c m items1 := OnlyToggled_step c m fp
      rcases hp with hp | hp
      · subst hp
        have h1 : mapGet items1 fp = (mapGet m fp).map (fun it => updateCheckState it c) :=
          toggleStep_mapGet_self c m fp
        exact OnlyToggled.mapGet_updated c items1 _
          (toggleChildren_onlyToggled c d rest items1) fp (mapGet m fp) h1
      · have h2 := ih hok p hp
        rw [h2]
        exact OnlyToggled.map_eq c m items1 hstep p
  | case4 c d n rest m hn entries =>
      intro hok p hp
      rw [toggleChildren_cons_dir_unreadable c d n entries rest m hn] at hok
      simp at hok
  | case5 c d n rest m hn fp items1 es items2 hrec ih1 ih2 =>
      intro hok p hp
      rw [toggleChildren_cons_dir c d n es rest m hn] at hok ⊢
      have h4 : (match toggleChildren c (pathJoin d n) es items1 with
          | (items2, Option.none) => toggleChildren c d rest items2
          | (items2, some e) => (items2, some e)) = toggleChildren c d rest items2 := by
        rw [hrec]
      rw [h4] at hok ⊢
      have hstep : OnlyToggled c m items1 := OnlyToggled_step c m fp
      have hinner : OnlyToggled c items1 items2 := by
        have := toggleChildren_onlyToggled c fp es items1
        rwa [hrec] at this
      have houter : OnlyToggled c items2 (toggleChildren c d rest items2).1 :=
        toggleChildren_onlyToggled c d rest items2
      rw [walkPaths_cons_dir d n true es rest hn, List.mem_cons] at hp
      rcases hp with hp | hp
      · subst hp
        have h1 : mapGet items1 fp = (mapGet m fp).map (fun it => updateCheckState it c) :=
          toggleStep_mapGet_self c m fp
        have h2 : mapGet items2 fp = (mapGet m fp).map (fun it => updateCheckState it c) :=
          OnlyToggled.mapGet_updated c items1 items2 hinner fp (mapGet m fp) h1
        exact OnlyToggled.mapGet_updated c items2 _ houter fp (mapGet m fp) h2
      rcases List.mem_append.mp hp with hp | hp
      · have h2 := ih1 (by rw [hrec]) p hp
        rw [hrec] at h2
        have h3 : mapGet items2 p = (mapGet m p).map (fun it => updateCheckState it c) := by
          rw [h2]
          exact OnlyToggled.map_eq c m items1 hstep p
        exact OnlyToggled.mapGet_updated c items2 _ houter p (mapGet m p) h3
      · have h2 := ih2 hok p hp
        rw [h2]
        exact OnlyToggled.map_eq c m items2
          (OnlyToggled.trans c m items1 items2 hstep hinner) p
  | case6 c d n rest m hn fp items1 es items2 e hrec ih1 =>
      intro hok p hp
      rw [toggleChildren_cons_dir c d n es rest m hn] at hok
      have h4 : (match toggleChildren c (pathJoin d n) es items1 with
          | (items2, Option.none) => toggleChildren c d rest items2
          | (items2, some e) => (items2, some e)) = (items2, some e) := by
        rw [hrec]
      rw [h4] at hok
      simp at hok

/-! The expansion loop: lemmas for re-expansion and checked-state reuse. -/

/-- Whether the listing keeps an entry: `node_modules` / `.git` are dropped
only when the entry is a directory. -/
def keptEntry (e : String × FsTree) : Bool :=
  decide ¬(isDirEntry e.2 ∧ (e.1 = "node_modules" ∨ e.1 = ".git"))

/-- The item the listing builds for a kept entry, given the map at the time
the entry is processed. -/
def listedItem (d : String) (m : Items) (n : String) (sub : FsTree) : FileItem :=
  ⟨n, if isDirEntry sub then CollapsibleState.Collapsed else CollapsibleState.None,
   pathJoin d n, ((mapGet m (pathJoin d n)).map FileItem.isChecked).getD false⟩

theorem listFiles_cons_excluded (d n : String) (sub : FsTree)
    (rest : List (String × FsTree)) (m : Items)
    (h : isDirEntry sub ∧ (n = "node_modules" ∨ n = ".git")) :
    listFiles d ((n, sub) :: rest) m = listFiles d rest m := by
  simp [listFiles, h]

theorem listFiles_cons_kept (d n : String) (sub : FsTree)
    (rest : List (String × FsTree)) (m : Items)
    (h : ¬(isDirEntry sub ∧ (n = "node_modules" ∨ n = ".git"))) :
    listFiles d ((n, sub) :: rest) m =
      ((listFiles d rest (mapSet m (pathJoin d n) (listedItem d m n sub))).1,
       listedItem d m n sub ::
         (listFiles d rest (mapSet m (pathJoin d n) (listedItem d m n sub))).2) := by
  simp [listFiles, h, listedItem]

theorem listFiles_paths (d : String) (es : List (String × FsTree)) (m : Items) :
    (listFiles d es m).2.map FileItem.filePath
      = (es.filter keptEntry).map (fun e => pathJoin d e.1) := by
  induction es generalizing m with
  | nil => simp [listFiles]
  | cons e rest ih =>
      obtain ⟨n, sub⟩ := e
      by_cases h : isDirEntry sub ∧ (n = "node_modules" ∨ n = ".git")
      · rw [listFiles_cons_excluded d n sub rest m h]
        simp only [List.filter_cons, keptEntry, h]
        simpa using ih m
      · rw [listFiles_cons_kept d n sub rest m h]
        simp only [List.filter_cons, keptEntry, h]
        simp only [decide_not, List.map_cons]
        simp only [decide_eq_true_eq] at *
        simp [h, listedItem, ih]

theorem listFiles_checked (d : String) (es : List (String × FsTree)) (m : Items)
    (hnd : (es.map Prod.fst).Nodup) :
    ∀ it ∈ (listFiles d es m).2,
      it.isChecked = ((mapGet m it.filePath).map FileItem.isChecked).getD false := by
  induction es generalizing m with
  | nil => simp [listFiles]
  | cons e rest ih =>
      obtain ⟨n, sub⟩ := e
      simp only [List.map_cons, List.nodup_cons] at hnd
      obtain ⟨hn, hrest⟩ := hnd
      by_cases h : isDirEntry sub ∧ (n = "node_modules" ∨ n = ".git")
      · rw [listFiles_cons_excluded d n sub rest m h]
        exact ih m hrest
      · rw [listFiles_cons_kept d n sub rest m h]
        intro it hit
        rcases List.mem_cons.mp hit with hit | hit
        · subst hit
          rfl
        · have h2 := ih (mapSet m (pathJoin d n) (listedItem d m n sub)) hrest it hit
          have h3 : it.filePath
              ∈ (rest.filter keptEntry).map (fun e => pathJoin d e.1) := by
            rw [← listFiles_paths d rest (mapSet m (pathJoin d n) (listedItem d m n sub))]
            exact List.mem_map_of_mem _ hit
          obtain ⟨e2, he2, hpath⟩ := List.mem_map.mp h3
          have hne : it.filePath ≠ pathJoin d n := by
            intro hcon
            rw [← hpath] at hcon
            have he : e2.1 = n := pathJoin_right_inj d hcon
            exact hn (he ▸ List.mem_map_of_mem Prod.fst (List.mem_of_mem_filter he2))
          rw [h2, mapGet_mapSet_ne m (pathJoin d n) it.filePath _ hne]

theorem listFiles_mapGet_notin (d : String) (es : List (String × FsTree))
    (m : Items) (p : String)
    (hp : p ∉ (es.filter keptEntry).map (fun e => pathJoin d e.1)) :
    mapGet (listFiles d es m).1 p = mapGet m p := by
  induction es generalizing m with
  | nil => simp [listFiles]
  | cons e rest ih =>
      obtain ⟨n, sub⟩ := e
      by_cases h : isDirEntry sub ∧ (n = "node_modules" ∨ n = ".git")
      · rw [listFiles_cons_excluded d n sub rest m h]
        refine ih m ?_
        intro hcon
        refine hp ?_
        have hk : keptEntry (n, sub) = false := by
          simp [keptEntry, h]
        simpa [List.filter_cons, hk] using hcon
      · have hk : keptEntry (n, sub) = true := by
          simp [keptEntry, h]
        simp only [List.filter_cons, hk, if_true, List.map_cons, List.mem_cons,
          not_or] at hp
        obtain ⟨hp1, hp2⟩ := hp
        rw [listFiles_cons_kept d n sub rest m h]
        have h2 := ih (mapSet m (pathJoin d n) (listedItem d m n sub)) hp2
        rw [h2, mapGet_mapSet_ne m (pathJoin d n) p _ hp1]

theorem listedItem_eq_of_checked (d n : String) (sub : FsTree) (m1 m2 : Items)
    (h : ((mapGet m1 (pathJoin d n)).map FileItem.isChecked).getD false
       = ((mapGet m2 (pathJoin d n)).map FileItem.isChecked).getD false) :
    listedItem d m1 n sub = listedItem d m2 n sub := by
  simp [listedItem, h]

theorem listFiles_idem (d : String) (es : List (String × FsTree)) (m : Items)
    (hnd : (es.map Prod.fst).Nodup) :
    listFiles d es (listFiles d es m).1 = listFiles d es m := by
  induction es generalizing m with
  | nil => simp [listFiles]
  | cons e rest ih =>
      obtain ⟨n, sub⟩ := e
      simp only [List.map_cons, List.nodup_cons] at hnd
      obtain ⟨hn, hrest⟩ := hnd
      by_cases h : isDirEntry sub ∧ (n = "node_modules" ∨ n = ".git")
      · rw [listFiles_cons_excluded d n sub rest m h,
          listFiles_cons_excluded d n sub rest _ h]
        exact ih m hrest
      · have hfp_notin : pathJoin d n
            ∉ (rest.filter keptEntry).map (fun e => pathJoin d e.1) := by
          intro hcon
          obtain ⟨e2, he2, hpe⟩ := List.mem_map.mp hcon
          have he : e2.1 = n := pathJoin_right_inj d hpe
          exact hn (he ▸ List.mem_map_of_mem Prod.fst (List.mem_of_mem_filter he2))
        rw [listFiles_cons_kept d n sub rest m h]
        have hA : mapGet
            (listFiles d rest (mapSet m (pathJoin d n) (listedItem d m n sub))).1
            (pathJoin d n) = some (listedItem d m n sub) := by
          rw [listFiles_mapGet_notin d rest _ (pathJoin d n) hfp_notin,
            mapGet_mapSet_self]
        rw [listFiles_cons_kept d n sub rest _ h]
        have hchecked : ((mapGet
            (listFiles d rest (mapSet m (pathJoin d n) (listedItem d m n sub))).1
            (pathJoin d n)).map FileItem.isChecked).getD false
            = ((mapGet m (pathJoin d n)).map FileItem.isChecked).getD false := by
          rw [hA]
          simp [listedItem]
        have hitem := listedItem_eq_of_checked d n sub _ m hchecked
        rw [hitem, mapSet_self _ _ _ hA,
          ih (mapSet m (pathJoin d n) (listedItem d m n sub)) hrest]

/-! The generation loop. -/

/-- The document shape stated by the spec: one block per checked file — a
header line with the path relative to the workspace root, the raw content,
then a blank-line separator — concatenated in selection order. -/
def specBlocks (readF : String → Option String) (root : String) :
    List String → String
  | [] => ""
  | f :: rest =>
      "// File: " ++ relativePath root f ++ "\n" ++ ((readF f).getD "") ++ "\n\n"
        ++ specBlocks readF root rest

theorem buildOutput_ok (readF : String → Option String) (root : String)
    (files : List String) (h : ∀ g ∈ files, (readF g).isSome) :
    buildOutput readF root files = Except.ok (specBlocks readF root files) := by
  induction files with
  | nil => rfl
  | cons f rest ih =>
      have hf := h f (List.mem_cons_self f rest)
      obtain ⟨cf, hcf⟩ := Option.isSome_iff_exists.mp hf
      have hrest := fun g hg => h g (List.mem_cons_of_mem f hg)
      simp [buildOutput, hcf, ih hrest, specBlocks]

theorem buildOutput_first_error (readF : String → Option String) (root : String)
    (pre : List String) (f : String) (post : List String)
    (hpre : ∀ g ∈ pre, (readF g).isSome) (hf : readF f = Option.none) :
    buildOutput readF root (pre ++ f :: post) = Except.error f := by
  induction pre with
  | nil => simp [buildOutput, hf]
  | cons g pre2 ih =>
      have hg := hpre g (List.mem_cons_self g pre2)
      obtain ⟨cg, hcg⟩ := Option.isSome_iff_exists.mp hg
      have hpre2 := fun x hx => hpre x (List.mem_cons_of_mem g hx)
      simp [buildOutput, hcg, ih hpre2]

/-! Wrappers lifting the loop lemmas to toggleDirectoryChildren and
toggleCheck. -/

theorem toggleDirectoryChildren_onlyToggled (t : FsTree) (d : String)
    (c : Bool) (m : Items) :
    OnlyToggled c m (toggleDirectoryChildren t d c m).1 := by
  cases t with
  | file content => exact OnlyToggled.refl c m
  | dir b es =>
      cases b with
      | false => exact OnlyToggled.refl c m
      | true => exact toggleChildren_onlyToggled c d es m

theorem toggleDirectoryChildren_mapGet_of_le (t : FsTree) (d : String)
    (c : Bool) (m : Items) (k : String) (h : k.length ≤ d.length) :
    mapGet (toggleDirectoryChildren t d c m).1 k = mapGet m k := by
  cases t with
  | file content => rfl
  | dir b es =>
      cases b with
      | false => rfl
      | true => exact toggleChildren_mapGet_of_le c d es m k h

theorem toggleDirectoryChildren_walk (t : FsTree) (d : String)
    (c : Bool) (m : Items)
    (hok : (toggleDirectoryChildren t d c m).2 = Option.none)
    (p : String) (hp : p ∈ walkPathsTree t d) :
    mapGet (toggleDirectoryChildren t d c m).1 p
      = (mapGet m p).map (fun it => updateCheckState it c) := by
  cases t with
  | file content => simp [walkPathsTree] at hp
  | dir b es =>
      cases b with
      | false => simp [toggleDirectoryChildren] at hok
      | true => exact toggleChildren_walk c d es m hok p hp

theorem toggleCheck_of_file (t : FsTree) (items : Items) (item : FileItem)
    (hk : item.collapsibleState = CollapsibleState.None)
    (hm : mapGet items item.filePath = some item) :
    toggleCheck t items item =
      (mapSet items item.filePath (updateCheckState item (!item.isChecked)),
       Option.none) := by
  simp [toggleCheck, hk, hm]

theorem toggleCheck_of_dir (t : FsTree) (items : Items) (item : FileItem)
    (hk : item.collapsibleState ≠ CollapsibleState.None)
    (hm : mapGet items item.filePath = some item) :
    toggleCheck t items item =
      toggleDirectoryChildren t item.filePath (!item.isChecked)
        (mapSet items item.filePath (updateCheckState item (!item.isChecked))) := by
  simp [toggleCheck, hk, hm]

theorem toggleCheck_self_get (t : FsTree) (items : Items) (item : FileItem)
    (hm : mapGet items item.filePath = some item) :
    mapGet (toggleCheck t items item).1 item.filePath
      = some (updateCheckState item (!item.isChecked)) := by
  by_cases hk : item.collapsibleState = CollapsibleState.None
  · simp [toggleCheck_of_file t items item hk hm, mapGet_mapSet_self]
  · rw [toggleCheck_of_dir t items item hk hm,
      toggleDirectoryChildren_mapGet_of_le _ _ _ _ _ (le_refl _)]
    exact mapGet_mapSet_self items item.filePath _

theorem mapGet_toggleAll_items (l : Items) (a : Bool) (k : String) :
    mapGet (l.map (fun p => (p.1, updateCheckState p.2 a))) k
      = (mapGet l k).map (fun it => updateCheckState it a) := by
  induction l with
  | nil => rfl
  | cons hd tl ih =>
      obtain ⟨x, b⟩ := hd
      by_cases h : x = k <;> simp [mapGet, h, ih]

/-! Claim theorems. -/

/-- C9: toggling a node twice in succession restores its original checked
value — toggle is an involution on the node's checked state.  The second
toggle receives the item as updated by the first (the map and the UI hold
the same object); the conclusion holds for file and directory nodes alike,
since directory propagation only writes strictly longer descendant paths
and never the toggled node itself. -/
theorem toggle_involution (t t2 : FsTree) (items : Items) (item : FileItem)
    (hm : mapGet items item.filePath = some item) :
    ∃ it2, mapGet (toggleCheck t2 (toggleCheck t items item).1
        (updateCheckState item (!item.isChecked))).1 item.filePath = some it2 ∧
      it2.isChecked = item.isChecked := by
  have h1 := toggleCheck_self_get t items item hm
  have h2 := toggleCheck_self_get t2 (toggleCheck t items item).1
    (updateCheckState item (!item.isChecked)) h1
  exact ⟨_, h2, by simp [updateCheckState]⟩

def w9Item : FileItem := ⟨"a", CollapsibleState.None, "/r/a", false⟩

def w9Items : Items := [("/r/a", w9Item)]

/-- Witness for C9 at a concrete file node. -/
theorem toggle_involution_witness :
    ∃ it2, mapGet (toggleCheck (FsTree.file "x")
        (toggleCheck (FsTree.file "x") w9Items w9Item).1
        (updateCheckState w9Item (!w9Item.isChecked))).1 w9Item.filePath
      = some it2 ∧ it2.isChecked = w9Item.isChecked :=
  toggle_involution (FsTree.file "x") (FsTree.file "x") w9Items w9Item (by decide)

/-- C10: toggling a file-kind node mutates only that node's checked state:
no propagation error, the result is independent of the filesystem (no read
occurs), the key set of the map is unchanged, every other binding is
unchanged, and the binding at the node's path becomes exactly the item with
the flipped checked value (label, kind and path untouched by
updateCheckState). -/
theorem toggle_file_frame (t t2 : FsTree) (items : Items) (item : FileItem)
    (hk : item.collapsibleState = CollapsibleState.None)
    (hm : mapGet items item.filePath = some item) :
    (toggleCheck t items item).2 = Option.none ∧
    toggleCheck t items item = toggleCheck t2 items item ∧
    (toggleCheck t items item).1.map Prod.fst = items.map Prod.fst ∧
    (∀ q, q ≠ item.filePath →
        mapGet (toggleCheck t items item).1 q = mapGet items q) ∧
    mapGet (toggleCheck t items item).1 item.filePath
      = some (updateCheckState item (!item.isChecked)) ∧
    ((updateCheckState item (!item.isChecked)).label = item.label ∧
     (updateCheckState item (!item.isChecked)).collapsibleState = item.collapsibleState ∧
     (updateCheckState item (!item.isChecked)).filePath = item.filePath) := by
  rw [toggleCheck_of_file t items item hk hm, toggleCheck_of_file t2 items item hk hm]
  refine ⟨rfl, rfl, ?_, ?_, ?_, rfl, rfl, rfl⟩
  · exact mapSet_keys_of_isSome items item.filePath _ (by simp [hm])
  · intro q hq
    exact mapGet_mapSet_ne items item.filePath q _ hq
  · exact mapGet_mapSet_self items item.filePath _

def w10Item : FileItem := ⟨"b", CollapsibleState.None, "/r/b", true⟩

def w10Items : Items :=
  [("/r/b", w10Item), ("/r/c", ⟨"c", CollapsibleState.None, "/r/c", false⟩)]

/-- Witness for C10 at a concrete two-binding map. -/
theorem toggle_file_frame_witness :
    (toggleCheck (FsTree.file "x") w10Items w10Item).2 = Option.none ∧
    toggleCheck (FsTree.file "x") w10Items w10Item
      = toggleCheck (FsTree.dir true []) w10Items w10Item ∧
    mapGet (toggleCheck (FsTree.file "x") w10Items w10Item).1 "/r/c"
      = mapGet w10Items "/r/c" ∧
    mapGet (toggleCheck (FsTree.file "x") w10Items w10Item).1 "/r/b"
      = some (updateCheckState w10Item false) := by
  have h := toggle_file_frame (FsTree.file "x") (FsTree.dir true [])
    w10Items w10Item rfl (by decide)
  exact ⟨h.1, h.2.1, h.2.2.2.1 "/r/c" (by decide), h.2.2.2.2.1⟩

/-- C5: toggleAllFiles flips the allChecked flag and sets checked to the
new flag value for every binding currently in the map and no others (the
key set is preserved and absent keys stay absent, so later-discovered nodes
are unaffected); from the initial flag false one call checks every known
node, a second call unchecks them all; as a total pure map over the state
it has no failure outcome. -/
theorem toggleAll_spec (s : ProviderState) :
    (toggleAllFiles s).allChecked = !s.allChecked ∧
    (toggleAllFiles s).items.map Prod.fst = s.items.map Prod.fst ∧
    (∀ p it, mapGet s.items p = some it →
        mapGet (toggleAllFiles s).items p
          = some (updateCheckState it (!s.allChecked))) ∧
    (∀ p, mapGet s.items p = Option.none →
        mapGet (toggleAllFiles s).items p = Option.none) ∧
    (s.allChecked = false →
      (∀ p it, mapGet (toggleAllFiles s).items p = some it →
          it.isChecked = true) ∧
      (∀ p it, mapGet (toggleAllFiles (toggleAllFiles s)).items p = some it →
          it.isChecked = false)) := by
  refine ⟨rfl, by simp [toggleAllFiles], ?_, ?_, ?_⟩
  · intro p it h
    simp [toggleAllFiles, mapGet_toggleAll_items, h]
  · intro p h
    simp [toggleAllFiles, mapGet_toggleAll_items, h]
  · intro hfl
    constructor
    · intro p it h
      simp only [toggleAllFiles, mapGet_toggleAll_items] at h
      rcases hx : mapGet s.items p with _ | x
      · rw [hx] at h
        simp at h
      · rw [hx] at h
        simp only [Option.map_some'] at h
        rw [← Option.some.injEq] at h
        cases h
        simp [updateCheckState, hfl]
    · intro p it h
      simp only [toggleAllFiles, mapGet_toggleAll_items] at h
      rcases hx : mapGet s.items p with _ | x
      · rw [hx] at h
        simp at h
      · rw [hx] at h
        simp only [Option.map_some'] at h
        rw [← Option.some.injEq] at h
        cases h
        simp [updateCheckState, hfl]

def w5State : ProviderState :=
  ⟨[("/r/a", ⟨"a", CollapsibleState.None, "/r/a", false⟩),
    ("/r/d", ⟨"d", CollapsibleState.Collapsed, "/r/d", true⟩)], false⟩

/-- Witness for C5 at a concrete state with flag false. -/
theorem toggleAll_spec_witness :
    (toggleAllFiles w5State).allChecked = !w5State.allChecked ∧
    mapGet (toggleAllFiles w5State).items "/r/a"
      = some (updateCheckState ⟨"a", CollapsibleState.None, "/r/a", false⟩
          (!w5State.allChecked)) ∧
    mapGet (toggleAllFiles w5State).items "/r/x" = Option.none :=
  ⟨(toggleAll_spec w5State).1,
   (toggleAll_spec w5State).2.2.1 "/r/a" _ (by decide),
   (toggleAll_spec w5State).2.2.2.1 "/r/x" (by decide)⟩

theorem getCheckedFiles_eq_filter (m : Items) :
    getCheckedFiles m = (m.filter (fun b =>
      b.2.isChecked && decide (b.2.collapsibleState = CollapsibleState.None))).map
        Prod.fst := by
  induction m with
  | nil => rfl
  | cons hd tl ih =>
      obtain ⟨k, it⟩ := hd
      by_cases hc : it.isChecked <;>
        by_cases hs : it.collapsibleState = CollapsibleState.None <;>
        simp [getCheckedFiles, List.filter_cons, hc, hs, ih]

/-- C6: generateFile invoked while no file is checked takes the
no-selection outcome — the user-facing warning, a constructor distinct from
the read-failure error — and writes no artifact; the embedding of
generateFile takes the item map purely and returns only the outcome, there
is no state mutation to undo. -/
theorem generate_no_selection (readF : String → Option String) (root : String)
    (fn : Option String) (items : Items)
    (h : getCheckedFiles items = []) :
    generateFile readF root fn items = GenResult.noSelection ∧
    (∀ op doc, generateFile readF root fn items ≠ GenResult.written op doc) ∧
    (∀ p, (GenResult.noSelection : GenResult) ≠ GenResult.readFailed p) := by
  have h1 : generateFile readF root fn items = GenResult.noSelection := by
    simp [generateFile, h]
  refine ⟨h1, ?_, ?_⟩
  · intro op doc hcon
    rw [h1] at hcon
    exact GenResult.noConfusion hcon
  · intro p hcon
    exact GenResult.noConfusion hcon

def w6Items : Items := [("/r/a", ⟨"a", CollapsibleState.None, "/r/a", false⟩)]

/-- Witness for C6: a map with one unchecked file. -/
theorem generate_no_selection_witness :
    generateFile (fun _ => some "") "/r" (some "out") w6Items
      = GenResult.noSelection :=
  (generate_no_selection (fun _ => some "") "/r" (some "out") w6Items (by decide)).1

/-- C7: when reading a checked file fails during generation, the whole
call aborts with the read-failure outcome naming that path.  The list of
files after the failing one and the reader's behaviour on them are
universally quantified and unconstrained: no file after the failing one
influences the result, no partial document survives and nothing is
written. -/
theorem generate_read_failure_aborts (readF : String → Option String)
    (root nm : String) (items : Items) (pre post : List String) (f : String)
    (hfiles : getCheckedFiles items = pre ++ f :: post)
    (hpre : ∀ g ∈ pre, (readF g).isSome)
    (hf : readF f = Option.none) :
    generateFile readF root (some nm) items = GenResult.readFailed f ∧
    (∀ op doc, generateFile readF root (some nm) items
      ≠ GenResult.written op doc) := by
  have hne2 : (pre ++ f :: post).isEmpty = false := by
    cases pre <;> rfl
  have hb := buildOutput_first_error readF root pre f post hpre hf
  have h1 : generateFile readF root (some nm) items = GenResult.readFailed f := by
    simp [generateFile, hfiles, hne2, hb]
  refine ⟨h1, ?_⟩
  intro op doc hcon
  rw [h1] at hcon
  exact GenResult.noConfusion hcon

def w7Items : Items :=
  [("/r/a", ⟨"a", CollapsibleState.None, "/r/a", true⟩),
   ("/r/b", ⟨"b", CollapsibleState.None, "/r/b", true⟩)]

def w7Read : String → Option String :=
  fun p => if p = "/r/a" then some "A" else Option.none

/-- Witness for C7: two checked files, the second unreadable. -/
theorem generate_read_failure_aborts_witness :
    generateFile w7Read "/r" (some "out") w7Items = GenResult.readFailed "/r/b" :=
  (generate_read_failure_aborts w7Read "/r" "out" w7Items ["/r/a"] [] "/r/b"
    (by decide) (by decide) (by decide)).1

/-- C8: with every checked file readable, the produced document is the
concatenation, in getCheckedFiles order, of one block per file — a header
line carrying the path relative to the workspace root, the raw content,
then a blank-line separator — written to root/name.txt; and getCheckedFiles
is the in-order projection of the map filtered to checked file rows, i.e.
map insertion order of discovery. -/
theorem generate_document_format (readF : String → Option String)
    (root nm : String) (items : Items)
    (hne : getCheckedFiles items ≠ [])
    (hall : ∀ g ∈ getCheckedFiles items, (readF g).isSome) :
    generateFile readF root (some nm) items
      = GenResult.written (pathJoin root (nm ++ ".txt"))
          (specBlocks readF root (getCheckedFiles items)) ∧
    getCheckedFiles items = (items.filter (fun b =>
      b.2.isChecked && decide (b.2.collapsibleState = CollapsibleState.None))).map
        Prod.fst := by
  have hne2 : (getCheckedFiles items).isEmpty = false := by
    cases hgc : getCheckedFiles items with
    | nil => exact absurd hgc hne
    | cons a l => rfl
  have hb := buildOutput_ok readF root (getCheckedFiles items) hall
  refine ⟨?_, getCheckedFiles_eq_filter items⟩
  simp [generateFile, hne2, hb]

def w8Items : Items :=
  [("/r/a.txt", ⟨"a.txt", CollapsibleState.None, "/r/a.txt", true⟩),
   ("/r/sub", ⟨"sub", CollapsibleState.Collapsed, "/r/sub", true⟩),
   ("/r/sub/b.txt", ⟨"b.txt", CollapsibleState.None, "/r/sub/b.txt", true⟩)]

def w8Read : String → Option String :=
  fun p => if p = "/r/a.txt" then some "X"
           else if p = "/r/sub/b.txt" then some "Y" else Option.none

/-- Witness for C8: the end-to-end scenario of the spec, with the document
evaluated to its literal text (the checked directory row contributes no
block; files appear in discovery order). -/
theorem generate_document_format_witness :
    generateFile w8Read "/r" (some "out") w8Items
      = GenResult.written (pathJoin "/r" ("out" ++ ".txt"))
          (specBlocks w8Read "/r" (getCheckedFiles w8Items)) ∧
    specBlocks w8Read "/r" (getCheckedFiles w8Items)
      = "// File: a.txt\nX\n\n// File: sub/b.txt\nY\n\n" :=
  ⟨(generate_document_format w8Read "/r" "out" w8Items (by decide) (by decide)).1,
   by decide⟩

theorem toggleCheck_onlyToggled (t : FsTree) (items : Items) (item : FileItem)
    (hm : mapGet items item.filePath = some item) :
    OnlyToggled (!item.isChecked) items (toggleCheck t items item).1 := by
  have hstep : OnlyToggled (!item.isChecked) items
      (mapSet items item.filePath (updateCheckState item (!item.isChecked))) := by
    have h := OnlyToggled_step (!item.isChecked) items item.filePath
    rw [hm] at h
    simpa using h
  by_cases hk : item.collapsibleState = CollapsibleState.None
  · rw [toggleCheck_of_file t items item hk hm]
    exact hstep
  · rw [toggleCheck_of_dir t items item hk hm]
    exact OnlyToggled.trans (!item.isChecked) items
      (mapSet items item.filePath (updateCheckState item (!item.isChecked))) _
      hstep
      (toggleDirectoryChildren_onlyToggled t item.filePath (!item.isChecked) _)

/-- C2: toggling a directory node terminates in exactly one of two ways:
success, or the IOError of the first descendant directory whose readdir
failed, carried in the operation's result (not swallowed).  On failure no
rollback happens: the toggled node itself keeps its new checked value, and
every binding is either untouched or already set to the new value (the
partial propagation performed before the failure is kept). -/
theorem toggle_directory_outcomes (t : FsTree) (items : Items) (item : FileItem)
    (hk : item.collapsibleState ≠ CollapsibleState.None)
    (hm : mapGet items item.filePath = some item) :
    ((toggleCheck t items item).2 = Option.none ∨
      ∃ p, (toggleCheck t items item).2 = some (IOErr.readdirFailed p)) ∧
    (∀ e, (toggleCheck t items item).2 = some e →
      mapGet (toggleCheck t items item).1 item.filePath
        = some (updateCheckState item (!item.isChecked))) ∧
    (∀ e, (toggleCheck t items item).2 = some e →
      ∀ k it2, mapGet items k = some it2 →
        mapGet (toggleCheck t items item).1 k = some it2 ∨
        mapGet (toggleCheck t items item).1 k
          = some (updateCheckState it2 (!item.isChecked))) := by
  refine ⟨?_, ?_, ?_⟩
  · rcases he : (toggleCheck t items item).2 with _ | e
    · exact Or.inl rfl
    · cases e with
      | readdirFailed p => exact Or.inr ⟨p, rfl⟩
  · intro e _
    exact toggleCheck_self_get t items item hm
  · intro e _ k it2 hk2
    rcases toggleCheck_onlyToggled t items item hm k with h | h
    · exact Or.inl (h.trans hk2)
    · right
      rw [h, hk2]
      rfl

def w2Tree : FsTree :=
  FsTree.dir true [("a", FsTree.file "A"), ("bad", FsTree.dir false [])]

def w2DirItem : FileItem := ⟨"r", CollapsibleState.Collapsed, "/r", false⟩

def w2FileItem : FileItem := ⟨"a", CollapsibleState.None, "/r/a", false⟩

def w2Items : Items := [("/r", w2DirItem), ("/r/a", w2FileItem)]

/-- Witness for C2: toggling `/r` fails on the unreadable subdirectory
`/r/bad`, the error names that path, and the updates to `/r` and to the
sibling `/r/a` performed before the failure are kept. -/
theorem toggle_directory_outcomes_witness :
    ((toggleCheck w2Tree w2Items w2DirItem).2 = Option.none ∨
      ∃ p, (toggleCheck w2Tree w2Items w2DirItem).2
        = some (IOErr.readdirFailed p)) ∧
    (toggleCheck w2Tree w2Items w2DirItem).2
      = some (IOErr.readdirFailed "/r/bad") ∧
    mapGet (toggleCheck w2Tree w2Items w2DirItem).1 "/r"
      = some (updateCheckState w2DirItem true) ∧
    mapGet (toggleCheck w2Tree w2Items w2DirItem).1 "/r/a"
      = some (updateCheckState w2FileItem true) := by
  have h := toggle_directory_outcomes w2Tree w2Items w2DirItem
    (by decide) (by decide)
  refine ⟨h.1, ?_, ?_, ?_⟩ <;>
    simp [w2Tree, w2Items, w2DirItem, w2FileItem, toggleCheck,
      toggleDirectoryChildren, toggleChildren, mapGet, mapSet,
      updateCheckState, pathJoin]

theorem walkPaths_length (d : String) (es : List (String × FsTree)) :
    ∀ p ∈ walkPaths d es, d.length < p.length := by
  induction d, es using walkPaths.induct with
  | case1 d =>
      intro p hp
      simp [walkPaths] at hp
  | case2 d n sub rest hn ih =>
      intro p hp
      rw [walkPaths_cons_excluded d n sub rest hn] at hp
      exact ih p hp
  | case3 d n sub rest hn ihsub ihrest =>
      intro p hp
      cases sub with
      | file content =>
          rw [walkPaths_cons_file d n content rest hn, List.mem_cons] at hp
          rcases hp with hp | hp
          · subst hp
            have := pathJoin_length d n
            omega
          · exact ihrest p hp
      | dir b es2 =>
          rw [walkPaths_cons_dir d n b es2 rest hn, List.mem_cons] at hp
          rcases hp with hp | hp
          · subst hp
            have := pathJoin_length d n
            omega
          · rcases List.mem_append.mp hp with hp | hp
            · have h1 := ihsub p hp
              have := pathJoin_length d n
              omega
            · exact ihrest p hp

theorem toggleCheck_dir_known_walk (t : FsTree) (items : Items) (item : FileItem)
    (hk : item.collapsibleState ≠ CollapsibleState.None)
    (hm : mapGet items item.filePath = some item)
    (hok : (toggleCheck t items item).2 = Option.none)
    (p : String) (hp : p ∈ walkPathsTree t item.filePath)
    (it2 : FileItem) (hit2 : mapGet items p = some it2) :
    mapGet (toggleCheck t items item).1 p
      = some (updateCheckState it2 (!item.isChecked)) := by
  rw [toggleCheck_of_dir t items item hk hm] at hok ⊢
  have hlen : item.filePath.length < p.length := by
    cases t with
    | file content => simp [walkPathsTree] at hp
    | dir b es2 => exact walkPaths_length item.filePath es2 p hp
  have hne : p ≠ item.filePath := by
    intro hcon
    rw [hcon] at hlen
    omega
  have hm1 : mapGet
      (mapSet items item.filePath (updateCheckState item (!item.isChecked))) p
      = some it2 := by
    rw [mapGet_mapSet_ne items item.filePath p _ hne, hit2]
  have hw := toggleDirectoryChildren_walk t item.filePath (!item.isChecked) _
    hok p hp
  rw [hw, hm1]
  rfl

def cx1Tree : FsTree := FsTree.dir true [("f.txt", FsTree.file "X")]

def cx1DirItem : FileItem := ⟨"d", CollapsibleState.Collapsed, "/r/d", false⟩

def cx1Items : Items := [("/r/d", cx1DirItem)]

/-- C1 counterexample: the directory `/r/d` holds the never-expanded
on-disk file `/r/d/f.txt` (not ignored); toggling `/r/d` succeeds and sets
the directory itself, but creates no map entry for the file, and the
subsequent getCheckedFiles is empty — against the claim that toggling
creates entries for unknown descendants so that every on-disk file under
the node appears in checkedFiles. -/
theorem toggle_directory_discovery_counterexample :
    (toggleCheck cx1Tree cx1Items cx1DirItem).2 = Option.none ∧
    mapGet (toggleCheck cx1Tree cx1Items cx1DirItem).1 "/r/d/f.txt"
      = Option.none ∧
    getCheckedFiles (toggleCheck cx1Tree cx1Items cx1DirItem).1 = [] ∧
    mapGet (toggleCheck cx1Tree cx1Items cx1DirItem).1 "/r/d"
      = some (updateCheckState cx1DirItem true) := by
  simp [cx1Tree, cx1Items, cx1DirItem, toggleCheck, toggleDirectoryChildren,
    toggleChildren, mapGet, mapSet, updateCheckState, getCheckedFiles, pathJoin]

/-- C1 amended: toggling a directory node walks the actual filesystem
subtree, but only sets the checked state of descendants already present in
the node map — it never creates entries (an absent path stays absent).  On
success every already-known binding at a visited path is set to the new
value, and when the new value is checked, every already-known file row
under the node is in the subsequent getCheckedFiles; on-disk files with no
map entry are not. -/
theorem toggle_directory_known_descendants (t : FsTree) (items : Items)
    (item : FileItem)
    (hk : item.collapsibleState ≠ CollapsibleState.None)
    (hm : mapGet items item.filePath = some item) :
    (∀ p, mapGet items p = Option.none →
        mapGet (toggleCheck t items item).1 p = Option.none) ∧
    ((toggleCheck t items item).2 = Option.none →
      ∀ p ∈ walkPathsTree t item.filePath, ∀ it2, mapGet items p = some it2 →
        mapGet (toggleCheck t items item).1 p
          = some (updateCheckState it2 (!item.isChecked))) ∧
    ((toggleCheck t items item).2 = Option.none → item.isChecked = false →
      ∀ p ∈ walkPathsTree t item.filePath, ∀ it2, mapGet items p = some it2 →
        it2.collapsibleState = CollapsibleState.None →
        p ∈ getCheckedFiles (toggleCheck t items item).1) := by
  refine ⟨?_, ?_, ?_⟩
  · intro p hp
    rcases toggleCheck_onlyToggled t items item hm p with h | h
    · rw [h, hp]
    · rw [h, hp]
      rfl
  · intro hok p hp it2 hit2
    exact toggleCheck_dir_known_walk t items item hk hm hok p hp it2 hit2
  · intro hok hco p hp it2 hit2 hstate
    have hset := toggleCheck_dir_known_walk t items item hk hm hok p hp it2 hit2
    refine mem_getCheckedFiles_of _ p (updateCheckState it2 (!item.isChecked))
      (mapGet_mem _ p _ hset) ?_ ?_
    · simp [updateCheckState, hco]
    · simpa [updateCheckState] using hstate

def w1Tree : FsTree :=
  FsTree.dir true [("a", FsTree.file "A"),
    ("sub", FsTree.dir true [("b", FsTree.file "B")])]

def w1DirItem : FileItem := ⟨"r", CollapsibleState.Collapsed, "/r", false⟩

def w1FileItem : FileItem := ⟨"a", CollapsibleState.None, "/r/a", false⟩

def w1Items : Items := [("/r", w1DirItem), ("/r/a", w1FileItem)]

/-- Witness for the amended C1: the never-expanded on-disk file `/r/sub/b`
gains no entry, while the known file `/r/a` is set and appears in
getCheckedFiles. -/
theorem toggle_directory_known_descendants_witness :
    mapGet (toggleCheck w1Tree w1Items w1DirItem).1 "/r/sub/b" = Option.none ∧
    mapGet (toggleCheck w1Tree w1Items w1DirItem).1 "/r/a"
      = some (updateCheckState w1FileItem true) ∧
    "/r/a" ∈ getCheckedFiles (toggleCheck w1Tree w1Items w1DirItem).1 := by
  have h := toggle_directory_known_descendants w1Tree w1Items w1DirItem
    (by decide) (by decide)
  have hok : (toggleCheck w1Tree w1Items w1DirItem).2 = Option.none := by
    simp [w1Tree, w1Items, w1DirItem, toggleCheck, toggleDirectoryChildren,
      toggleChildren, mapGet, mapSet, updateCheckState, pathJoin]
  have hmem : "/r/a" ∈ walkPathsTree w1Tree w1DirItem.filePath := by
    simp [w1Tree, w1DirItem, walkPathsTree, walkPaths, pathJoin]
  exact ⟨h.1 "/r/sub/b" (by decide),
    h.2.1 hok "/r/a" hmem w1FileItem (by decide),
    h.2.2 hok (by decide) "/r/a" hmem w1FileItem (by decide) (by decide)⟩

def c3Tree : FsTree := FsTree.dir true [(".git", FsTree.file "secret")]

def c3GitItem : FileItem := ⟨".git", CollapsibleState.None, "/r/.git", false⟩

def c3DirItem : FileItem := ⟨"r", CollapsibleState.Collapsed, "/r", false⟩

def c3Items : Items := [("/r", c3DirItem), ("/r/.git", c3GitItem)]

/-- C3 counterexample: a FILE named `.git` under `/r` is listed by the
expansion (the listing excludes such names only for directories), but the
directory-toggle propagation, which excludes by name alone, skips it: after
toggling `/r` the directory is checked while the known file `/r/.git` keeps
its old unchecked state — against the claim that a file with such a name is
propagated to like any other file. -/
theorem exclusion_kind_counterexample :
    ((getFilesInDirectory c3Tree "/r" c3Items).map
        (fun r => r.2.map FileItem.filePath)) = some ["/r/.git"] ∧
    (toggleCheck c3Tree c3Items c3DirItem).2 = Option.none ∧
    mapGet (toggleCheck c3Tree c3Items c3DirItem).1 "/r/.git"
      = some c3GitItem ∧
    mapGet (toggleCheck c3Tree c3Items c3DirItem).1 "/r"
      = some (updateCheckState c3DirItem true) := by
  simp [c3Tree, c3Items, c3DirItem, c3GitItem, toggleCheck,
    toggleDirectoryChildren, toggleChildren, getFilesInDirectory, listFiles,
    isDirEntry, mapGet, mapSet, updateCheckState, pathJoin]

/-- C3 amended: the directory listing excludes an entry named exactly
`node_modules` or `.git` only when the entry is a directory — a file with
such a name is listed like any other file — while the toggle propagation
skips entries with these names regardless of kind, so such a file, although
listed, is never propagated to. -/
theorem exclusion_kind_amended (c : Bool) (d n : String) (sub : FsTree)
    (rest : List (String × FsTree)) (m : Items)
    (hn : n = "node_modules" ∨ n = ".git") :
    toggleChildren c d ((n, sub) :: rest) m = toggleChildren c d rest m ∧
    (∀ content, listFiles d ((n, FsTree.file content) :: rest) m =
      ((listFiles d rest (mapSet m (pathJoin d n)
          (listedItem d m n (FsTree.file content)))).1,
       listedItem d m n (FsTree.file content) ::
         (listFiles d rest (mapSet m (pathJoin d n)
            (listedItem d m n (FsTree.file content)))).2)) ∧
    (∀ b es, listFiles d ((n, FsTree.dir b es) :: rest) m
      = listFiles d rest m) := by
  refine ⟨toggleChildren_cons_excluded c d n sub rest m hn, ?_, ?_⟩
  · intro content
    exact listFiles_cons_kept d n (FsTree.file content) rest m
      (by simp [isDirEntry])
  · intro b es
    exact listFiles_cons_excluded d n (FsTree.dir b es) rest m
      (by simp [isDirEntry, hn])

/-- Witness for the amended C3 at the name `.git` on a concrete map. -/
theorem exclusion_kind_amended_witness :
    toggleChildren true "/r" [(".git", FsTree.file "s")] c3Items
      = toggleChildren true "/r" [] c3Items ∧
    listFiles "/r" [(".git", FsTree.file "s")] c3Items
      = ((listFiles "/r" [] (mapSet c3Items (pathJoin "/r" ".git")
            (listedItem "/r" c3Items ".git" (FsTree.file "s")))).1,
         listedItem "/r" c3Items ".git" (FsTree.file "s") ::
           (listFiles "/r" [] (mapSet c3Items (pathJoin "/r" ".git")
              (listedItem "/r" c3Items ".git" (FsTree.file "s")))).2) ∧
    listFiles "/r" [(".git", FsTree.dir true [])] c3Items
      = listFiles "/r" [] c3Items := by
  have h := exclusion_kind_amended true "/r" ".git" (FsTree.file "s") []
    c3Items (Or.inr rfl)
  exact ⟨h.1, h.2.1 "s", h.2.2 true []⟩

/-- C4: expansion of a readable directory returns one node per kept entry
in listing order (path = dirPath joined with the entry name, ignored names
dropped only for directories); a node whose path was absent from the map is
created with checked = false, one whose path was present reuses the stored
checked value; and re-expanding with no intervening toggles returns the
same map and the same nodes — in particular identical checked values both
times. -/
theorem expand_reuse_idempotent (t : FsTree) (d : String) (items : Items)
    (es : List (String × FsTree)) (ht : t = FsTree.dir true es)
    (hnd : (es.map Prod.fst).Nodup) :
    getFilesInDirectory t d items
      = some ((listFiles d es items).1, (listFiles d es items).2) ∧
    (listFiles d es items).2.map FileItem.filePath
      = (es.filter keptEntry).map (fun e => pathJoin d e.1) ∧
    (∀ it ∈ (listFiles d es items).2, it.isChecked
      = ((mapGet items it.filePath).map FileItem.isChecked).getD false) ∧
    (∀ it ∈ (listFiles d es items).2, mapGet items it.filePath = Option.none →
      it.isChecked = false) ∧
    getFilesInDirectory t d (listFiles d es items).1
      = some ((listFiles d es items).1, (listFiles d es items).2) := by
  subst ht
  refine ⟨rfl, listFiles_paths d es items, listFiles_checked d es items hnd,
    ?_, ?_⟩
  · intro it hit hnone
    rw [listFiles_checked d es items hnd it hit, hnone]
    rfl
  · show some (listFiles d es (listFiles d es items).1)
      = some ((listFiles d es items).1, (listFiles d es items).2)
    rw [listFiles_idem d es items hnd]

def w4Entries : List (String × FsTree) :=
  [("a.txt", FsTree.file "X"), ("node_modules", FsTree.dir true []),
   ("b", FsTree.file "Y")]

def w4Tree : FsTree := FsTree.dir true w4Entries

def w4Items : Items := [("/r/b", ⟨"b", CollapsibleState.None, "/r/b", true⟩)]

/-- Witness for C4: a listing with an ignored directory, one fresh file and
one file whose path already has a checked binding; the fresh node is
unchecked, the known one keeps checked = true, and re-expansion returns the
same result. -/
theorem expand_reuse_idempotent_witness :
    getFilesInDirectory w4Tree "/r" w4Items
      = some ((listFiles "/r" w4Entries w4Items).1,
          (listFiles "/r" w4Entries w4Items).2) ∧
    (listFiles "/r" w4Entries w4Items).2.map FileItem.filePath
      = (w4Entries.filter keptEntry).map (fun e => pathJoin "/r" e.1) ∧
    getFilesInDirectory w4Tree "/r" (listFiles "/r" w4Entries w4Items).1
      = some ((listFiles "/r" w4Entries w4Items).1,
          (listFiles "/r" w4Entries w4Items).2) ∧
    (listFiles "/r" w4Entries w4Items).2.map FileItem.isChecked
      = [false, true] := by
  have h := expand_reuse_idempotent w4Tree "/r" w4Items w4Entries rfl (by decide)
  exact ⟨h.1, h.2.1, h.2.2.2.2, by decide⟩

end FileCollector
